import Mathlib

/-!
Shallow embedding of the aggregation core of `src/app.js` (the rumble
dashboard).  JavaScript objects used as string-keyed dictionaries are
embedded as association lists in insertion order; `obj[k]` reads the
first binding of `k`, and the `if (!obj[k]) obj[k] = init; obj[k].f++`
idiom is embedded as an update-in-place-or-append operation.  Machine
numbers that the code only ever increments are `Nat`; percentages, which
the code computes with `/` and `* 100`, are `ℚ`.  `created_at`
timestamps are normalized ISO-8601 UTC strings, on which the JavaScript
`>` comparison is lexicographic; `new Date(s).toISOString()` is the
identity on such strings and `.split('T')[0]` takes the date portion.
-/

namespace Rumble

/-- A row of the `powerup_events` table (§3 of the spec). -/
structure Event where
  game_id : String
  team_num : Nat
  player_name : String
  powerup_name : String
  event_type : String
  created_at : String
  deriving DecidableEq

/-- A row of the `match_results` table; rosters may be absent (`null`). -/
structure MatchRec where
  game_id : String
  team0_players : Option (List String)
  team1_players : Option (List String)
  winning_team : Nat
  created_at : String
  deriving DecidableEq

/-- The `{used, goals}` cell of a stats dictionary. -/
structure PowerupStat where
  used : Nat
  goals : Nat
  deriving DecidableEq

/-- First-binding lookup in a string-keyed association list, the
embedding of `obj[k]` on a JavaScript object. -/
def lookupA {α : Type} (m : List (String × α)) (k : String) : Option α :=
  match m with
  | [] => none
  | (k', v) :: rest => if k' = k then some v else lookupA rest k

/-- Embedding of `if (!obj[k]) obj[k] = init; obj[k] = f(obj[k])`:
update the first binding of `k` in place, or append `(k, f init)`. -/
def upsert {α : Type} (m : List (String × α)) (k : String) (init : α)
    (f : α → α) : List (String × α) :=
  match m with
  | [] => [(k, f init)]
  | (k', v) :: rest =>
      if k' = k then (k', f v) :: rest else (k', v) :: upsert rest k init f

/-- Embedding of `if (!obj[k]) obj[k] = init`: seed a key if absent. -/
def seedIfAbsent {α : Type} (m : List (String × α)) (k : String) (init : α) :
    List (String × α) :=
  match m with
  | [] => [(k, init)]
  | (k', v) :: rest =>
      if k' = k then (k', v) :: rest else (k', v) :: seedIfAbsent rest k init

/-- Lexicographic comparison of character lists by code point — the
order underlying the JavaScript default string comparison. -/
def lexCmp : List Char → List Char → Ordering
  | [], [] => .eq
  | [], _ :: _ => .lt
  | _ :: _, [] => .gt
  | c :: cs, d :: ds =>
      if c.toNat < d.toNat then .lt
      else if d.toNat < c.toNat then .gt
      else lexCmp cs ds

/-- `a <= b` on strings in code-point lexicographic order. -/
def strLeb (a b : String) : Bool :=
  !(lexCmp a.data b.data == .gt)

/-- `a < b` on strings in code-point lexicographic order (the JavaScript
`<` / `>` comparison on strings). -/
def strLtb (a b : String) : Bool :=
  lexCmp a.data b.data == .lt

/-- JavaScript `Array.prototype.sort()` with the default comparator on
strings: the sorted (ascending, lexicographic) permutation of the list. -/
def sortStrings (l : List String) : List String :=
  List.insertionSort (fun a b : String => strLeb a b = true) l

/-- `players.sort().join(" & ")` — the joined sorted roster, without the
`"Unknown"` fallback (as in `renderRivalries`). -/
def joinedRoster (r : Option (List String)) : String :=
  " & ".intercalate (sortStrings (r.getD []))

/-- `(players || []).sort().join(" & ") || "Unknown"` — the team identity
used in `calculateTeamStatsByEvent` (a falsy, i.e. empty, join gives
`"Unknown"`). -/
def resolveTeamName (r : Option (List String)) : String :=
  let j := joinedRoster r
  if j = "" then "Unknown" else j

/-- The state of a roster array after the in-place `.sort()` call: a
present roster is left sorted; an absent one stays absent (the code
sorts a fresh `[]` in that case). -/
def rosterAfterResolve (r : Option (List String)) : Option (List String) :=
  r.map sortStrings

/-- The per-event update of one entity's inner powerup → stat map:
`if (!m[pItem]) m[pItem] = {used:0, goals:0}` followed by the
Activation / Goal-and-not-None increment. -/
def cellStep (inner : List (String × PowerupStat)) (e : Event) :
    List (String × PowerupStat) :=
  if e.event_type = "Activation" then
    upsert inner e.powerup_name ⟨0, 0⟩ (fun s => { s with used := s.used + 1 })
  else if e.event_type = "Goal" ∧ e.powerup_name ≠ "None" then
    upsert inner e.powerup_name ⟨0, 0⟩ (fun s => { s with goals := s.goals + 1 })
  else seedIfAbsent inner e.powerup_name ⟨0, 0⟩

/-- The per-event update of `playerStats` inside `calculatePowerupStats`. -/
def playerStep (acc : List (String × List (String × PowerupStat)))
    (e : Event) : List (String × List (String × PowerupStat)) :=
  upsert acc e.player_name [] (fun inner => cellStep inner e)

/-- The per-event update of `totalUsage` inside `calculatePowerupStats`. -/
def usageStep (acc : List (String × Nat)) (e : Event) : List (String × Nat) :=
  if e.event_type = "Activation" then
    upsert acc e.powerup_name 0 (fun n => n + 1)
  else acc

/-- `calculatePowerupStats(events).playerStats`: pre-seed every player
name appearing in any event with an empty map, then fold the events. -/
def calcPlayerStats (events : List Event) :
    List (String × List (String × PowerupStat)) :=
  let seeded := events.foldl (fun m e => seedIfAbsent m e.player_name []) []
  events.foldl playerStep seeded

/-- `calculatePowerupStats(events).totalUsage`. -/
def calcTotalUsage (events : List Event) : List (String × Nat) :=
  events.foldl usageStep []

/-- Read `used` out of a nested entity → powerup → stat dictionary
(0 when either key is absent). -/
def getUsed (stats : List (String × List (String × PowerupStat)))
    (entity powerup : String) : Nat :=
  match lookupA stats entity with
  | none => 0
  | some inner =>
    match lookupA inner powerup with
    | none => 0
    | some s => s.used

/-- Read `goals` out of a nested stats dictionary (0 when absent). -/
def getGoals (stats : List (String × List (String × PowerupStat)))
    (entity powerup : String) : Nat :=
  match lookupA stats entity with
  | none => 0
  | some inner =>
    match lookupA inner powerup with
    | none => 0
    | some s => s.goals

/-- `obj[k] = v`: replace the first binding of `k`, or append one. -/
def setA {α : Type} (m : List (String × α)) (k : String) (v : α) :
    List (String × α) :=
  match m with
  | [] => [(k, v)]
  | (k', w) :: rest =>
      if k' = k then (k', v) :: rest else (k', w) :: setA rest k v

/-- The `gameToTeams` lookup built at the top of
`calculateTeamStatsByEvent`: `game_id → (team0 identity, team1 identity)`. -/
def gameToTeams (matchList : List MatchRec) :
    List (String × (String × String)) :=
  matchList.foldl
    (fun m mr =>
      setA m mr.game_id
        (resolveTeamName mr.team0_players, resolveTeamName mr.team1_players))
    []

/-- The team identity an event is joined to: `gameToTeams[e.game_id][e.team_num]`
(`none` for an orphan event).  `team_num` is `0|1` in the input contract;
`0` selects the first component. -/
def teamOf (g : List (String × (String × String))) (e : Event) :
    Option String :=
  (lookupA g e.game_id).map (fun p => if e.team_num = 0 then p.1 else p.2)

/-- Pre-seeding of `teamStats`: every identity occurring in `gameToTeams`
except `"Unknown"`, in first-occurrence order, bound to an empty map. -/
def seedTeams (matchList : List MatchRec) :
    List (String × List (String × PowerupStat)) :=
  ((gameToTeams matchList).flatMap (fun kv => [kv.2.1, kv.2.2])).foldl
    (fun acc t => if t = "Unknown" then acc else seedIfAbsent acc t []) []

/-- The per-event update of `teamStats` inside `calculateTeamStatsByEvent`:
skip orphans and events joined to `"Unknown"`, else update the cell. -/
def teamStep (g : List (String × (String × String)))
    (acc : List (String × List (String × PowerupStat))) (e : Event) :
    List (String × List (String × PowerupStat)) :=
  match teamOf g e with
  | none => acc
  | some teamName =>
      if teamName = "Unknown" then acc
      else upsert acc teamName [] (fun inner => cellStep inner e)

/-- `calculateTeamStatsByEvent(events, matches)`. -/
def calculateTeamStatsByEvent (events : List Event)
    (matchList : List MatchRec) :
    List (String × List (String × PowerupStat)) :=
  events.foldl (teamStep (gameToTeams matchList)) (seedTeams matchList)

/-- `new Date(s).toISOString().split('T')[0]` on a normalized ISO UTC
timestamp: its date portion, the characters before the first `T`. -/
def datePortion (s : String) : String :=
  ⟨s.data.takeWhile (fun c => c ≠ 'T')⟩

/-- `matches.reduce((max, m) => m.created_at > max ? m.created_at : max,
matches[0].created_at)` on the non-empty list `m0 :: ms`. -/
def maxCreated (m0 : MatchRec) (ms : List MatchRec) : String :=
  (m0 :: ms).foldl
    (fun mx m => if strLtb mx m.created_at then m.created_at else mx)
    m0.created_at

/-- The last-play-day date key of `renderLastDayStats`. -/
def lastDayKey (m0 : MatchRec) (ms : List MatchRec) : String :=
  datePortion (maxCreated m0 ms)

/-- `matches.filter(m => new Date(m.created_at).toISOString().startsWith(lastDay))`:
for fixed-format ISO strings, the 10-character date prefix test is date-portion
equality. -/
def lastDayMatches (m0 : MatchRec) (ms : List MatchRec) : List MatchRec :=
  (m0 :: ms).filter (fun m => datePortion m.created_at = lastDayKey m0 ms)

/-- `events.filter(e => lastDayMatchIds.has(e.game_id))`. -/
def lastDayEvents (events : List Event) (m0 : MatchRec)
    (ms : List MatchRec) : List Event :=
  events.filter
    (fun e => ((lastDayMatches m0 ms).map MatchRec.game_id).contains e.game_id)

/-- A rivalry table entry of `renderRivalries`. -/
structure RivalryRecord where
  teamA : String
  teamB : String
  winsA : Nat
  winsB : Nat
  games : Nat
  deriving DecidableEq

/-- The per-match update of the `rivalries` dictionary in
`renderRivalries`: resolve both sides without the `"Unknown"` fallback,
skip a match with a falsy (empty) side, canonicalize the pair with
`[t0, t1].sort()`, then bump `games` and the winner's counter. -/
def rivalryStep (acc : List (String × RivalryRecord)) (m : MatchRec) :
    List (String × RivalryRecord) :=
  let t0 := joinedRoster m.team0_players
  let t1 := joinedRoster m.team1_players
  if t0 = "" ∨ t1 = "" then acc
  else
    let a := if strLeb t0 t1 then t0 else t1
    let b := if strLeb t0 t1 then t1 else t0
    upsert acc (a ++ " vs " ++ b) ⟨a, b, 0, 0, 0⟩ (fun r =>
      let r2 := { r with games := r.games + 1 }
      let winner := if m.winning_team = 0 then t0 else t1
      if winner = a then { r2 with winsA := r2.winsA + 1 }
      else { r2 with winsB := r2.winsB + 1 })

/-- The `rivalries` dictionary computed by `renderRivalries`. -/
def computeRivalries (matchList : List MatchRec) :
    List (String × RivalryRecord) :=
  matchList.foldl rivalryStep []

/-- A `{total, rumble}` cell of the top-scorers dictionary. -/
structure ScoreStat where
  total : Nat
  rumble : Nat
  deriving DecidableEq

/-- The per-event update of the top-scorers dictionary: on a Goal event,
`total++`, and `rumble++` when the powerup is not `"None"`. -/
def scorerStep (acc : List (String × ScoreStat)) (e : Event) :
    List (String × ScoreStat) :=
  if e.event_type = "Goal" then
    upsert acc e.player_name ⟨0, 0⟩ (fun s =>
      { total := s.total + 1
        rumble := s.rumble + (if e.powerup_name ≠ "None" then 1 else 0) })
  else acc

/-- The `playerStats` dictionary of `renderTopScorers`: seed every
player name appearing in any event with `{total:0, rumble:0}`, then
count Goal events. -/
def topScorers (events : List Event) : List (String × ScoreStat) :=
  events.foldl scorerStep
    (events.foldl (fun m e => seedIfAbsent m e.player_name ⟨0, 0⟩) [])

/-- `Object.keys(POWERUP_COLORS)` — the fixed, closed power-up catalogue. -/
def catalogue : List String :=
  ["Kaktus", "Nogica", "Magnet", "Saka", "Ventilator", "Plunger",
   "Betman", "Teleport", "Freeze", "Sakica", "Boost"]

/-- `Object.values(stats[e]).reduce((a, b) => a + b.used, 0)` — the
entity's total recorded usage over every powerup key present. -/
def totalUsedOf (inner : List (String × PowerupStat)) : Nat :=
  (inner.map (fun kv => kv.2.used)).sum

/-- `stats[e][p] ? stats[e][p].used : 0` — the usage count one powerup
contributes to the fairness numerator. -/
def usedOf (inner : List (String × PowerupStat)) (p : String) : Nat :=
  match lookupA inner p with
  | some s => s.used
  | none => 0

/-- The fairness percentage of `renderFairnessChart` /
`renderTeamFairnessChart`: `totalItems > 0 ? (count / totalItems) * 100 : 0`. -/
def pctOf (inner : List (String × PowerupStat)) (p : String) : ℚ :=
  let total := totalUsedOf inner
  let count := usedOf inner p
  if total > 0 then ((count : ℚ) / (total : ℚ)) * 100 else 0

/-- A sortable column of a detailed-stats table. -/
inductive SortCol
  | name
  | used
  | goals
  | conv
  deriving DecidableEq

/-- A sort direction. -/
inductive SortDir
  | asc
  | desc
  deriving DecidableEq

/-- One entry of `CARD_SORT_STATE`. -/
structure SortSpec where
  column : SortCol
  direction : SortDir
  deriving DecidableEq

/-- `asc` ↔ `desc`. -/
def flipDir : SortDir → SortDir
  | .asc => .desc
  | .desc => .asc

/-- The sort-state transition of `handleSort`: same column flips the
direction; a new column resets it (`asc` for `name`, else `desc`). -/
def handleSortSpec (s : SortSpec) (c : SortCol) : SortSpec :=
  if s.column = c then { s with direction := flipDir s.direction }
  else { column := c, direction := if c = .name then .asc else .desc }

/-- A row of `renderTableBody`. -/
structure Row where
  name : String
  used : Nat
  goals : Nat
  conv : ℚ
  deriving DecidableEq

/-- `Object.entries(stats).map(([name, data]) => ({name, ...data, conv}))`. -/
def rowsOf (stats : List (String × PowerupStat)) : List Row :=
  stats.map (fun kv =>
    ⟨kv.1, kv.2.used, kv.2.goals,
      if kv.2.used > 0 then ((kv.2.goals : Rat) / (kv.2.used : Rat)) * 100
      else 0⟩)

/-- The numeric value a non-`name` column reads from a row. -/
def numVal (r : Row) : SortCol → ℚ
  | .name => 0
  | .used => (r.used : ℚ)
  | .goals => (r.goals : ℚ)
  | .conv => r.conv

/-- The row comparison of `renderTableBody` as a non-strict relation:
`a` may precede `b` under `spec` (comparator ≤ 0, i.e. ties allowed). -/
def rowLEb (spec : SortSpec) (a b : Row) : Bool :=
  match spec.column, spec.direction with
  | .name, .asc => strLeb a.name b.name
  | .name, .desc => strLeb b.name a.name
  | c, .asc => decide (numVal a c ≤ numVal b c)
  | c, .desc => decide (numVal b c ≤ numVal a c)

/-- `rows.sort(comparator)` in `renderTableBody`: a stable sort by the
row comparison (JavaScript `Array.prototype.sort` is stable). -/
def renderRows (stats : List (String × PowerupStat)) (spec : SortSpec) :
    List Row :=
  List.insertionSort (fun a b => rowLEb spec a b = true) (rowsOf stats)

/-- The `[{name:"A",used:5},{name:"B",used:10}]` example table of §8 of
the spec, as an entity's powerup → stat map. -/
def sortExampleStats : List (String × PowerupStat) :=
  [("A", ⟨5, 0⟩), ("B", ⟨10, 0⟩)]

/-! ### Association-list lemmas -/

theorem lookupA_upsert {α : Type} (m : List (String × α)) (k : String)
    (init : α) (f : α → α) (q : String) :
    lookupA (upsert m k init f) q =
      if k = q then some (f ((lookupA m k).getD init)) else lookupA m q := by
  induction m with
  | nil =>
      by_cases h : k = q <;> simp [upsert, lookupA, h]
  | cons kv rest ih =>
      obtain ⟨k', v⟩ := kv
      by_cases h1 : k' = k
      · subst h1
        by_cases h2 : k' = q <;> simp [upsert, lookupA, h2]
      · by_cases h2 : k' = q
        · subst h2
          have hk : ¬ k = k' := fun h => h1 h.symm
          simp [upsert, lookupA, h1, hk]
        · simp [upsert, lookupA, h1, h2, ih]

theorem lookupA_seedIfAbsent {α : Type} (m : List (String × α)) (k : String)
    (init : α) (q : String) :
    lookupA (seedIfAbsent m k init) q =
      if k = q then some ((lookupA m k).getD init) else lookupA m q := by
  induction m with
  | nil =>
      by_cases h : k = q <;> simp [seedIfAbsent, lookupA, h]
  | cons kv rest ih =>
      obtain ⟨k', v⟩ := kv
      by_cases h1 : k' = k
      · subst h1
        by_cases h2 : k' = q <;> simp [seedIfAbsent, lookupA, h2]
      · by_cases h2 : k' = q
        · subst h2
          have hk : ¬ k = k' := fun h => h1 h.symm
          simp [seedIfAbsent, lookupA, h1, hk]
        · simp [seedIfAbsent, lookupA, h1, h2, ih]

theorem lookupA_setA {α : Type} (m : List (String × α)) (k : String)
    (v : α) (q : String) :
    lookupA (setA m k v) q = if k = q then some v else lookupA m q := by
  induction m with
  | nil =>
      by_cases h : k = q <;> simp [setA, lookupA, h]
  | cons kv rest ih =>
      obtain ⟨k', w⟩ := kv
      by_cases h1 : k' = k
      · subst h1
        by_cases h2 : k' = q <;> simp [setA, lookupA, h2]
      · by_cases h2 : k' = q
        · subst h2
          have hk : ¬ k = k' := fun h => h1 h.symm
          simp [setA, lookupA, h1, hk]
        · simp [setA, lookupA, h1, h2, ih]

/-! ### Player-level counting (calculatePowerupStats) -/

/-- The effect of one event on one `(entity, powerup)` `used` cell. -/
theorem getUsed_playerStep (acc : List (String × List (String × PowerupStat)))
    (e : Event) (a p : String) :
    getUsed (playerStep acc e) a p =
      getUsed acc a p +
        (if e.player_name = a ∧ e.powerup_name = p ∧ e.event_type = "Activation"
         then 1 else 0) := by
  unfold getUsed playerStep
  rw [lookupA_upsert]
  by_cases ha : e.player_name = a
  · simp only [ha, if_pos rfl]
    rcases hl : lookupA acc a with _ | inner
    · simp only [Option.getD_none]
      unfold cellStep
      by_cases ht : e.event_type = "Activation"
      · by_cases hp : e.powerup_name = p <;>
          simp [ht, hp, lookupA_upsert, lookupA, upsert]
      · have hno : ¬ (e.player_name = a ∧ e.powerup_name = p ∧
            e.event_type = "Activation") := by
          intro h
          exact ht h.2.2
        by_cases hg : e.event_type = "Goal" ∧ e.powerup_name ≠ "None"
        · by_cases hp : e.powerup_name = p
          · subst hp
            simp [ht, hg, hno, upsert, lookupA]
          · simp [ht, hg, hno, hp, lookupA_upsert, lookupA]
        · by_cases hp : e.powerup_name = p
          · subst hp
            simp [ht, hg, hno, seedIfAbsent, lookupA]
          · simp [ht, hg, hno, hp, lookupA_seedIfAbsent, lookupA]
    · simp only [Option.getD_some]
      unfold cellStep
      by_cases ht : e.event_type = "Activation"
      · by_cases hp : e.powerup_name = p
        · subst hp
          rcases hc : lookupA inner e.powerup_name with _ | s <;>
            simp [ht, lookupA_upsert, hc]
        · simp [ht, hp, lookupA_upsert]
      · have hno : ¬ (e.player_name = a ∧ e.powerup_name = p ∧
            e.event_type = "Activation") := by
          intro h
          exact ht h.2.2
        by_cases hg : e.event_type = "Goal" ∧ e.powerup_name ≠ "None"
        · by_cases hp : e.powerup_name = p
          · subst hp
            rcases hc : lookupA inner e.powerup_name with _ | s <;>
              simp [ht, hg, hno, lookupA_upsert, hc]
          · simp [ht, hg, hno, hp, lookupA_upsert]
        · by_cases hp : e.powerup_name = p
          · subst hp
            rcases hc : lookupA inner e.powerup_name with _ | s <;>
              simp [ht, hg, hno, lookupA_seedIfAbsent, hc]
          · simp [ht, hg, hno, hp, lookupA_seedIfAbsent]
  · have : ¬ (e.player_name = a ∧ e.powerup_name = p ∧
        e.event_type = "Activation") := fun h => ha h.1
    simp [ha, this]

/-- The effect of one event on one `(entity, powerup)` `goals` cell. -/
theorem getGoals_playerStep (acc : List (String × List (String × PowerupStat)))
    (e : Event) (a p : String) :
    getGoals (playerStep acc e) a p =
      getGoals acc a p +
        (if e.player_name = a ∧ e.powerup_name = p ∧ e.event_type = "Goal" ∧
            e.powerup_name ≠ "None"
         then 1 else 0) := by
  unfold getGoals playerStep
  rw [lookupA_upsert]
  by_cases ha : e.player_name = a
  · simp only [ha, if_pos rfl]
    rcases hl : lookupA acc a with _ | inner
    · simp only [Option.getD_none]
      unfold cellStep
      by_cases ht : e.event_type = "Activation"
      · have hno : ¬ (e.player_name = a ∧ e.powerup_name = p ∧
            e.event_type = "Goal" ∧ e.powerup_name ≠ "None") := by
          intro h
          rw [h.2.2.1] at ht
          exact absurd ht (by decide)
        by_cases hp : e.powerup_name = p
        · subst hp
          simp [ht, hno, upsert, lookupA]
        · simp [ht, hno, hp, lookupA_upsert, lookupA]
      · by_cases hg : e.event_type = "Goal" ∧ e.powerup_name ≠ "None"
        · by_cases hp : e.powerup_name = p
          · subst hp
            have hyes : e.player_name = a ∧ e.powerup_name = e.powerup_name ∧
                e.event_type = "Goal" ∧ e.powerup_name ≠ "None" :=
              ⟨ha, rfl, hg.1, hg.2⟩
            simp [ht, hg, hyes, upsert, lookupA]
          · simp [ht, hg, hp, lookupA_upsert, lookupA]
        · have hno : ¬ (e.player_name = a ∧ e.powerup_name = p ∧
              e.event_type = "Goal" ∧ e.powerup_name ≠ "None") := by
            intro h
            exact hg ⟨h.2.2.1, h.2.2.2⟩
          by_cases hp : e.powerup_name = p
          · subst hp
            simp [ht, hg, hno, seedIfAbsent, lookupA]
          · simp [ht, hg, hno, hp, lookupA_seedIfAbsent, lookupA]
    · simp only [Option.getD_some]
      unfold cellStep
      by_cases ht : e.event_type = "Activation"
      · have hno : ¬ (e.player_name = a ∧ e.powerup_name = p ∧
            e.event_type = "Goal" ∧ e.powerup_name ≠ "None") := by
          intro h
          rw [h.2.2.1] at ht
          exact absurd ht (by decide)
        by_cases hp : e.powerup_name = p
        · subst hp
          rcases hc : lookupA inner e.powerup_name with _ | s <;>
            simp [ht, hno, lookupA_upsert, hc]
        · simp [ht, hno, hp, lookupA_upsert]
      · by_cases hg : e.event_type = "Goal" ∧ e.powerup_name ≠ "None"
        · by_cases hp : e.powerup_name = p
          · subst hp
            have hyes : e.player_name = a ∧ e.powerup_name = e.powerup_name ∧
                e.event_type = "Goal" ∧ e.powerup_name ≠ "None" :=
              ⟨ha, rfl, hg.1, hg.2⟩
            rcases hc : lookupA inner e.powerup_name with _ | s <;>
              simp [ht, hg, hyes, lookupA_upsert, hc]
          · simp [ht, hg, hp, lookupA_upsert]
        · have hno : ¬ (e.player_name = a ∧ e.powerup_name = p ∧
              e.event_type = "Goal" ∧ e.powerup_name ≠ "None") := by
            intro h
            exact hg ⟨h.2.2.1, h.2.2.2⟩
          by_cases hp : e.powerup_name = p
          · subst hp
            rcases hc : lookupA inner e.powerup_name with _ | s <;>
              simp [ht, hg, hno, lookupA_seedIfAbsent, hc]
          · simp [ht, hg, hno, hp, lookupA_seedIfAbsent]
  · have : ¬ (e.player_name = a ∧ e.powerup_name = p ∧
        e.event_type = "Goal" ∧ e.powerup_name ≠ "None") := fun h => ha h.1
    simp [ha, this]

/-- Folding `playerStep` over a list adds the Activation count of the
`(entity, powerup)` cell. -/
theorem getUsed_foldl (l : List Event)
    (acc : List (String × List (String × PowerupStat))) (a p : String) :
    getUsed (l.foldl playerStep acc) a p =
      getUsed acc a p +
        l.countP (fun e => decide (e.player_name = a ∧ e.powerup_name = p ∧
          e.event_type = "Activation")) := by
  induction l generalizing acc with
  | nil => simp
  | cons e rest ih =>
      rw [List.foldl_cons, ih, getUsed_playerStep, List.countP_cons]
      by_cases h : e.player_name = a ∧ e.powerup_name = p ∧
          e.event_type = "Activation" <;> simp [h] <;> omega

/-- Folding `playerStep` over a list adds the rumble-Goal count of the
`(entity, powerup)` cell. -/
theorem getGoals_foldl (l : List Event)
    (acc : List (String × List (String × PowerupStat))) (a p : String) :
    getGoals (l.foldl playerStep acc) a p =
      getGoals acc a p +
        l.countP (fun e => decide (e.player_name = a ∧ e.powerup_name = p ∧
          e.event_type = "Goal" ∧ e.powerup_name ≠ "None")) := by
  induction l generalizing acc with
  | nil => simp
  | cons e rest ih =>
      rw [List.foldl_cons, ih, getGoals_playerStep, List.countP_cons]
      by_cases h : e.player_name = a ∧ e.powerup_name = p ∧
          e.event_type = "Goal" ∧ e.powerup_name ≠ "None" <;>
        simp [h] <;> omega

/-- Seeding a player with an empty inner map never changes a cell. -/
theorem getUsed_seedIfAbsent
    (m : List (String × List (String × PowerupStat))) (k a p : String) :
    getUsed (seedIfAbsent m k []) a p = getUsed m a p := by
  unfold getUsed
  rw [lookupA_seedIfAbsent]
  by_cases h : k = a
  · subst h
    rcases hl : lookupA m k with _ | inner <;> simp [hl, lookupA]
  · simp [h]

/-- Seeding a player with an empty inner map never changes a cell. -/
theorem getGoals_seedIfAbsent
    (m : List (String × List (String × PowerupStat))) (k a p : String) :
    getGoals (seedIfAbsent m k []) a p = getGoals m a p := by
  unfold getGoals
  rw [lookupA_seedIfAbsent]
  by_cases h : k = a
  · subst h
    rcases hl : lookupA m k with _ | inner <;> simp [hl, lookupA]
  · simp [h]

/-- The pre-seeding pass of `calculatePowerupStats` leaves every cell 0. -/
theorem getUsed_seedFold (l : List Event)
    (acc : List (String × List (String × PowerupStat))) (a p : String) :
    getUsed (l.foldl (fun m e => seedIfAbsent m e.player_name []) acc) a p =
      getUsed acc a p := by
  induction l generalizing acc with
  | nil => rfl
  | cons e rest ih => rw [List.foldl_cons, ih, getUsed_seedIfAbsent]

/-- The pre-seeding pass of `calculatePowerupStats` leaves every cell 0. -/
theorem getGoals_seedFold (l : List Event)
    (acc : List (String × List (String × PowerupStat))) (a p : String) :
    getGoals (l.foldl (fun m e => seedIfAbsent m e.player_name []) acc) a p =
      getGoals acc a p := by
  induction l generalizing acc with
  | nil => rfl
  | cons e rest ih => rw [List.foldl_cons, ih, getGoals_seedIfAbsent]

/-- Closed form of the player-level cells. -/
theorem getUsed_calcPlayerStats (events : List Event) (a p : String) :
    getUsed (calcPlayerStats events) a p =
      events.countP (fun e => decide (e.player_name = a ∧
        e.powerup_name = p ∧ e.event_type = "Activation")) := by
  unfold calcPlayerStats
  rw [getUsed_foldl, getUsed_seedFold]
  simp [getUsed, lookupA]

/-- Closed form of the player-level cells. -/
theorem getGoals_calcPlayerStats (events : List Event) (a p : String) :
    getGoals (calcPlayerStats events) a p =
      events.countP (fun e => decide (e.player_name = a ∧
        e.powerup_name = p ∧ e.event_type = "Goal" ∧
        e.powerup_name ≠ "None")) := by
  unfold calcPlayerStats
  rw [getGoals_foldl, getGoals_seedFold]
  simp [getGoals, lookupA]

/-! ### Orphan events and team joins -/

theorem lookupA_gameToTeams_aux (ml : List MatchRec)
    (acc : List (String × (String × String))) (g : String)
    (hacc : lookupA acc g = none) (hg : g ∉ ml.map MatchRec.game_id) :
    lookupA
      (ml.foldl
        (fun m mr =>
          setA m mr.game_id
            (resolveTeamName mr.team0_players, resolveTeamName mr.team1_players))
        acc) g = none := by
  induction ml generalizing acc with
  | nil => exact hacc
  | cons mr rest ih =>
      rw [List.foldl_cons]
      have hne : mr.game_id ≠ g := by
        intro h
        exact hg (by simp [h])
      refine ih _ ?_ ?_
      · rw [lookupA_setA, if_neg hne]
        exact hacc
      · intro h
        exact hg (by simp [h])

/-- An orphan event's `game_id` resolves to no team pair. -/
theorem teamOf_orphan (matchList : List MatchRec) (e : Event)
    (h : e.game_id ∉ matchList.map MatchRec.game_id) :
    teamOf (gameToTeams matchList) e = none := by
  unfold teamOf gameToTeams
  rw [lookupA_gameToTeams_aux matchList [] e.game_id rfl h]
  rfl

/-! ### Top-scorers machinery -/

theorem lookupA_scorerSeed_some (l : List Event)
    (acc : List (String × ScoreStat)) (p : String) (v : ScoreStat)
    (h : lookupA acc p = some v) :
    lookupA
      (l.foldl (fun m e => seedIfAbsent m e.player_name ⟨0, 0⟩) acc) p =
      some v := by
  induction l generalizing acc with
  | nil => exact h
  | cons e rest ih =>
      rw [List.foldl_cons]
      refine ih _ ?_
      rw [lookupA_seedIfAbsent]
      by_cases he : e.player_name = p
      · simp [he, h]
      · simp [he, h]

theorem lookupA_scorerSeed_none (l : List Event)
    (acc : List (String × ScoreStat)) (p : String)
    (h : lookupA acc p = none) :
    lookupA
      (l.foldl (fun m e => seedIfAbsent m e.player_name ⟨0, 0⟩) acc) p =
      if p ∈ l.map Event.player_name then some ⟨0, 0⟩ else none := by
  induction l generalizing acc with
  | nil => simp [h]
  | cons e rest ih =>
      rw [List.foldl_cons]
      by_cases he : e.player_name = p
      · have : lookupA (seedIfAbsent acc e.player_name ⟨0, 0⟩) p =
            some ⟨0, 0⟩ := by
          rw [lookupA_seedIfAbsent, if_pos he, he, h]
          rfl
        rw [lookupA_scorerSeed_some rest _ p ⟨0, 0⟩ this]
        simp [he]
      · have : lookupA (seedIfAbsent acc e.player_name ⟨0, 0⟩) p = none := by
          rw [lookupA_seedIfAbsent, if_neg he]
          exact h
        rw [ih _ this]
        have he2 : ¬ p = e.player_name := fun hx => he hx.symm
        simp [he2]

theorem lookupA_scorerFold_some (l : List Event)
    (acc : List (String × ScoreStat)) (p : String) (v : ScoreStat)
    (h : lookupA acc p = some v) :
    lookupA (l.foldl scorerStep acc) p =
      some ⟨v.total + l.countP (fun e => decide (e.player_name = p ∧
              e.event_type = "Goal")),
            v.rumble + l.countP (fun e => decide (e.player_name = p ∧
              e.event_type = "Goal" ∧ e.powerup_name ≠ "None"))⟩ := by
  induction l generalizing acc v with
  | nil => simp [h]
  | cons e rest ih =>
      rw [List.foldl_cons]
      by_cases hg : e.event_type = "Goal"
      · by_cases he : e.player_name = p
        · have hstep : lookupA (scorerStep acc e) p =
              some ⟨v.total + 1,
                v.rumble + (if e.powerup_name ≠ "None" then 1 else 0)⟩ := by
            simp [scorerStep, hg, lookupA_upsert, he, h]
          rw [ih _ _ hstep]
          by_cases hn : e.powerup_name ≠ "None" <;>
            simp [List.countP_cons, he, hg, hn] <;> omega
        · have hstep : lookupA (scorerStep acc e) p = some v := by
            simp only [scorerStep, if_pos hg]
            rw [lookupA_upsert, if_neg he]
            exact h
          rw [ih _ _ hstep]
          simp [List.countP_cons, he]
      · have hstep : lookupA (scorerStep acc e) p = some v := by
          simp [scorerStep, hg, h]
        rw [ih _ _ hstep]
        simp [List.countP_cons, hg]

theorem lookupA_scorerFold_not_mem (l : List Event)
    (acc : List (String × ScoreStat)) (p : String)
    (h : p ∉ l.map Event.player_name) :
    lookupA (l.foldl scorerStep acc) p = lookupA acc p := by
  induction l generalizing acc with
  | nil => rfl
  | cons e rest ih =>
      rw [List.foldl_cons]
      have he : e.player_name ≠ p := by
        intro hx
        exact h (by simp [hx])
      have hrest : p ∉ rest.map Event.player_name := by
        intro hx
        exact h (by simp [hx])
      rw [ih _ hrest]
      by_cases hg : e.event_type = "Goal"
      · simp only [scorerStep, if_pos hg]
        rw [lookupA_upsert, if_neg he]
      · simp [scorerStep, hg]

/-! ### Claim theorems: C5, C10, C8 -/

/-- C5: in the player-level statistics of `calculatePowerupStats`, for
every entity and power-up, `used` equals exactly the number of
Activation events for that `(entity, power-up)` pair and `goals` equals
exactly the number of Goal events for that pair whose `powerup_name` is
not `"None"` — an exact-count characterization, so each event is counted
toward exactly one entity's cell and nothing is double counted. -/
theorem used_goals_conservation (events : List Event) (a p : String) :
    getUsed (calcPlayerStats events) a p =
      events.countP (fun e => decide (e.player_name = a ∧
        e.powerup_name = p ∧ e.event_type = "Activation")) ∧
    getGoals (calcPlayerStats events) a p =
      events.countP (fun e => decide (e.player_name = a ∧
        e.powerup_name = p ∧ e.event_type = "Goal" ∧
        e.powerup_name ≠ "None")) :=
  ⟨getUsed_calcPlayerStats events a p, getGoals_calcPlayerStats events a p⟩

/-- C10: the domain of the top-scorers dictionary is exactly the set of
player names appearing in any input event of any type; a player present
in the events has exactly their Goal count and rumble-Goal count (so a
player with only Activation events appears with `{total := 0, rumble := 0}`),
and an absent player name has no entry. -/
theorem topScorers_domain (events : List Event) (p : String) :
    lookupA (topScorers events) p =
      if p ∈ events.map Event.player_name then
        some ⟨events.countP (fun e => decide (e.player_name = p ∧
                e.event_type = "Goal")),
              events.countP (fun e => decide (e.player_name = p ∧
                e.event_type = "Goal" ∧ e.powerup_name ≠ "None"))⟩
      else none := by
  unfold topScorers
  by_cases hp : p ∈ events.map Event.player_name
  · have hseed := lookupA_scorerSeed_none events [] p rfl
    rw [if_pos hp] at hseed
    rw [if_pos hp]
    have := lookupA_scorerFold_some events _ p ⟨0, 0⟩ hseed
    simpa using this
  · have hseed := lookupA_scorerSeed_none events [] p rfl
    rw [if_neg hp] at hseed
    rw [if_neg hp]
    rw [lookupA_scorerFold_not_mem events _ p hp]
    exact hseed

/-- C8: an event whose `game_id` occurs in no match contributes nothing
to the team-level statistics (it is silently dropped, wherever it sits
in the event list), while the player-level statistics still count it
exactly as any other event. -/
theorem orphan_exclusion (pre post : List Event) (e : Event)
    (matchList : List MatchRec)
    (h : e.game_id ∉ matchList.map MatchRec.game_id) :
    calculateTeamStatsByEvent (pre ++ e :: post) matchList =
      calculateTeamStatsByEvent (pre ++ post) matchList ∧
    getUsed (calcPlayerStats (pre ++ e :: post)) e.player_name e.powerup_name =
      getUsed (calcPlayerStats (pre ++ post)) e.player_name e.powerup_name +
        (if e.event_type = "Activation" then 1 else 0) ∧
    getGoals (calcPlayerStats (pre ++ e :: post)) e.player_name e.powerup_name =
      getGoals (calcPlayerStats (pre ++ post)) e.player_name e.powerup_name +
        (if e.event_type = "Goal" ∧ e.powerup_name ≠ "None" then 1 else 0) := by
  refine ⟨?_, ?_, ?_⟩
  · unfold calculateTeamStatsByEvent
    rw [List.foldl_append, List.foldl_append, List.foldl_cons]
    have hstep : ∀ acc, teamStep (gameToTeams matchList) acc e = acc := by
      intro acc
      unfold teamStep
      rw [teamOf_orphan matchList e h]
    rw [hstep]
  · rw [getUsed_calcPlayerStats, getUsed_calcPlayerStats,
      List.countP_append, List.countP_append, List.countP_cons]
    by_cases ht : e.event_type = "Activation" <;> simp [ht] <;> omega
  · rw [getGoals_calcPlayerStats, getGoals_calcPlayerStats,
      List.countP_append, List.countP_append, List.countP_cons]
    by_cases ht : e.event_type = "Goal" ∧ e.powerup_name ≠ "None" <;>
      simp [ht] <;> omega

/-- Witness for `orphan_exclusion` at a concrete orphan Activation event
with an empty match list. -/
theorem orphan_exclusion_witness :
    calculateTeamStatsByEvent
        [⟨"g0", 0, "P", "Kaktus", "Activation", "t"⟩] [] =
      calculateTeamStatsByEvent [] [] ∧
    getUsed (calcPlayerStats [⟨"g0", 0, "P", "Kaktus", "Activation", "t"⟩])
        "P" "Kaktus" =
      getUsed (calcPlayerStats []) "P" "Kaktus" +
        (if ("Activation" : String) = "Activation" then 1 else 0) ∧
    getGoals (calcPlayerStats [⟨"g0", 0, "P", "Kaktus", "Activation", "t"⟩])
        "P" "Kaktus" =
      getGoals (calcPlayerStats []) "P" "Kaktus" +
        (if ("Activation" : String) = "Goal" ∧ ("Kaktus" : String) ≠ "None"
         then 1 else 0) :=
  orphan_exclusion [] [] ⟨"g0", 0, "P", "Kaktus", "Activation", "t"⟩ []
    (by simp)

/-! ### Claim C4: the "Unknown" identity is excluded from team stats -/

theorem lookupA_seedTeams_aux (ts : List String)
    (acc : List (String × List (String × PowerupStat)))
    (h : lookupA acc "Unknown" = none) :
    lookupA
      (ts.foldl
        (fun acc t => if t = "Unknown" then acc else seedIfAbsent acc t [])
        acc) "Unknown" = none := by
  induction ts generalizing acc with
  | nil => exact h
  | cons t rest ih =>
      rw [List.foldl_cons]
      by_cases ht : t = "Unknown"
      · rw [if_pos ht]
        exact ih _ h
      · rw [if_neg ht]
        refine ih _ ?_
        rw [lookupA_seedIfAbsent, if_neg ht]
        exact h

/-- `teamStep` is the identity on an event joined to `"Unknown"`. -/
theorem teamStep_unknown (g : List (String × (String × String)))
    (acc : List (String × List (String × PowerupStat))) (e : Event)
    (h : teamOf g e = some "Unknown") :
    teamStep g acc e = acc := by
  unfold teamStep
  rw [h]
  simp

/-- `teamStep` never creates an `"Unknown"` key. -/
theorem teamStep_no_unknown (g : List (String × (String × String)))
    (acc : List (String × List (String × PowerupStat))) (e : Event)
    (h : lookupA acc "Unknown" = none) :
    lookupA (teamStep g acc e) "Unknown" = none := by
  unfold teamStep
  rcases ht : teamOf g e with _ | teamName
  · exact h
  · by_cases hu : teamName = "Unknown"
    · simp [hu, h]
    · simp only [if_neg hu]
      rw [lookupA_upsert, if_neg hu]
      exact h

theorem teamFold_no_unknown (l : List Event)
    (g : List (String × (String × String)))
    (acc : List (String × List (String × PowerupStat)))
    (h : lookupA acc "Unknown" = none) :
    lookupA (l.foldl (teamStep g) acc) "Unknown" = none := by
  induction l generalizing acc with
  | nil => exact h
  | cons e rest ih =>
      rw [List.foldl_cons]
      exact ih _ (teamStep_no_unknown g acc e h)

theorem teamFold_filter_unknown (l : List Event)
    (g : List (String × (String × String)))
    (acc : List (String × List (String × PowerupStat))) :
    l.foldl (teamStep g) acc =
      (l.filter (fun e => decide (teamOf g e ≠ some "Unknown"))).foldl
        (teamStep g) acc := by
  induction l generalizing acc with
  | nil => rfl
  | cons e rest ih =>
      rw [List.foldl_cons]
      by_cases he : teamOf g e = some "Unknown"
      · rw [teamStep_unknown g acc e he]
        rw [ih]
        simp [List.filter_cons, he]
      · have : (decide (teamOf g e ≠ some "Unknown")) = true := by
          simp [he]
        simp only [List.filter_cons, this, if_pos]
        rw [List.foldl_cons, ih]

/-- C4: events joined to a match side whose roster resolves to the
sentinel identity `"Unknown"` contribute nothing to the team-level
statistics (filtering them out first gives the identical result), and
`"Unknown"` never appears as an entity key of the result. -/
theorem unknown_excluded (events : List Event) (matchList : List MatchRec) :
    lookupA (calculateTeamStatsByEvent events matchList) "Unknown" = none ∧
    calculateTeamStatsByEvent events matchList =
      calculateTeamStatsByEvent
        (events.filter
          (fun e => decide (teamOf (gameToTeams matchList) e ≠ some "Unknown")))
        matchList := by
  constructor
  · unfold calculateTeamStatsByEvent
    refine teamFold_no_unknown events _ _ ?_
    unfold seedTeams
    exact lookupA_seedTeams_aux _ [] rfl
  · unfold calculateTeamStatsByEvent
    exact teamFold_filter_unknown events _ _

/-! ### String sorting and roster resolution -/

theorem lexCmp_self (l : List Char) : lexCmp l l = .eq := by
  induction l with
  | nil => rfl
  | cons c cs ih => simp [lexCmp, ih]

theorem lexCmp_swap (a : List Char) :
    ∀ b : List Char, lexCmp b a = (lexCmp a b).swap := by
  induction a with
  | nil => intro b; cases b <;> rfl
  | cons x xs ih =>
      intro b
      cases b with
      | nil => rfl
      | cons y ys =>
          simp only [lexCmp]
          by_cases hxy : x.toNat < y.toNat
          · have hyx : ¬ y.toNat < x.toNat := by omega
            simp [hxy, hyx, Ordering.swap]
          · by_cases hyx : y.toNat < x.toNat
            · simp [hxy, hyx, Ordering.swap]
            · simp [hxy, hyx, ih ys]

theorem lexCmp_eq_eq : ∀ a b : List Char, lexCmp a b = .eq → a = b := by
  intro a
  induction a with
  | nil => intro b h; cases b with
      | nil => rfl
      | cons y ys => simp [lexCmp] at h
  | cons x xs ih =>
      intro b h
      cases b with
      | nil => simp [lexCmp] at h
      | cons y ys =>
          simp only [lexCmp] at h
          by_cases hxy : x.toNat < y.toNat
          · simp [hxy] at h
          · by_cases hyx : y.toNat < x.toNat
            · simp [hxy, hyx] at h
            · have hn : x.toNat = y.toNat := by omega
              have hv : x = y := Char.ext (UInt32.ext hn)
              simp [hxy, hyx] at h
              rw [hv, ih ys h]

theorem lexCmp_le_trans (a : List Char) :
    ∀ b c : List Char, lexCmp a b ≠ .gt → lexCmp b c ≠ .gt →
      lexCmp a c ≠ .gt := by
  induction a with
  | nil =>
      intro b c _ _
      cases c <;> simp [lexCmp]
  | cons x xs ih =>
      intro b c h1 h2
      cases b with
      | nil => simp [lexCmp] at h1
      | cons y ys =>
          cases c with
          | nil => simp [lexCmp] at h2
          | cons z zs =>
              simp only [lexCmp] at h1 h2 ⊢
              by_cases hxy : x.toNat < y.toNat
              · by_cases hxz : x.toNat < z.toNat
                · simp [hxz]
                · by_cases hyz : y.toNat < z.toNat
                  · omega
                  · by_cases hzy : z.toNat < y.toNat
                    · simp [hyz, hzy] at h2
                    · omega
              · by_cases hyx : y.toNat < x.toNat
                · simp [hxy, hyx] at h1
                · by_cases hyz : y.toNat < z.toNat
                  · simp [show x.toNat < z.toNat by omega]
                  · by_cases hzy : z.toNat < y.toNat
                    · simp [hyz, hzy] at h2
                    · have hxz : ¬ x.toNat < z.toNat := by omega
                      have hzx : ¬ z.toNat < x.toNat := by omega
                      simp only [hxy, hyx, if_neg, if_false] at h1
                      simp only [hyz, hzy, if_neg, if_false] at h2
                      simp only [hxz, hzx, if_neg, if_false]
                      exact ih ys zs h1 h2

theorem ordering_beq_gt_false (o : Ordering) :
    ((o == Ordering.gt) = false) ↔ o ≠ Ordering.gt := by
  cases o <;> decide

theorem strLeb_refl (a : String) : strLeb a a = true := by
  unfold strLeb
  rw [lexCmp_self]
  rfl

theorem strLeb_total (a b : String) : strLeb a b = true ∨ strLeb b a = true := by
  unfold strLeb
  rw [lexCmp_swap a.data b.data]
  cases lexCmp a.data b.data <;> decide

theorem strLeb_trans {a b c : String} (h1 : strLeb a b = true)
    (h2 : strLeb b c = true) : strLeb a c = true := by
  unfold strLeb at h1 h2 ⊢
  rw [Bool.not_eq_true'] at h1 h2 ⊢
  rw [ordering_beq_gt_false] at h1 h2 ⊢
  exact lexCmp_le_trans a.data b.data c.data h1 h2

theorem string_data_eq {a b : String} (h : a.data = b.data) : a = b := by
  cases a
  cases b
  exact congrArg String.mk h

theorem strLeb_antisymm {a b : String} (h1 : strLeb a b = true)
    (h2 : strLeb b a = true) : a = b := by
  unfold strLeb at h1 h2
  rw [lexCmp_swap a.data b.data] at h2
  rw [Bool.not_eq_true', ordering_beq_gt_false] at h1
  rw [Bool.not_eq_true', ordering_beq_gt_false] at h2
  refine string_data_eq (lexCmp_eq_eq _ _ ?_)
  cases h : lexCmp a.data b.data
  · rw [h] at h2
    simp [Ordering.swap] at h2
  · rfl
  · exact absurd h h1

theorem strLtb_of_le_ne {a b : String} (h1 : strLeb a b = true)
    (h2 : a ≠ b) : strLtb a b = true := by
  unfold strLeb at h1
  unfold strLtb
  rw [Bool.not_eq_true', ordering_beq_gt_false] at h1
  cases h : lexCmp a.data b.data
  · rfl
  · exact absurd (string_data_eq (lexCmp_eq_eq _ _ h)) h2
  · exact absurd h h1

theorem strLeb_of_not_le {a b : String} (h : ¬ strLeb a b = true) :
    strLeb b a = true :=
  (strLeb_total a b).resolve_left h

theorem sortStrings_perm (l : List String) : (sortStrings l).Perm l :=
  List.perm_insertionSort _ l

theorem sortStrings_sorted (l : List String) :
    List.Sorted (fun a b : String => strLeb a b = true) (sortStrings l) := by
  haveI : IsTotal String (fun a b : String => strLeb a b = true) :=
    ⟨strLeb_total⟩
  haveI : IsTrans String (fun a b : String => strLeb a b = true) :=
    ⟨fun _ _ _ => strLeb_trans⟩
  exact List.sorted_insertionSort _ l

theorem sortStrings_eq_of_perm {l l' : List String} (h : l.Perm l') :
    sortStrings l = sortStrings l' := by
  haveI : IsAntisymm String (fun a b : String => strLeb a b = true) :=
    ⟨fun _ _ => strLeb_antisymm⟩
  exact List.eq_of_perm_of_sorted
    ((sortStrings_perm l).trans (h.trans (sortStrings_perm l').symm))
    (sortStrings_sorted l) (sortStrings_sorted l')

theorem sortStrings_of_sorted {l : List String}
    (h : List.Sorted (fun a b : String => strLeb a b = true) l) :
    sortStrings l = l := by
  haveI : IsAntisymm String (fun a b : String => strLeb a b = true) :=
    ⟨fun _ _ => strLeb_antisymm⟩
  exact List.eq_of_perm_of_sorted (sortStrings_perm l) (sortStrings_sorted l) h

theorem joinedRoster_perm {l l' : List String} (h : l.Perm l') :
    joinedRoster (some l) = joinedRoster (some l') := by
  unfold joinedRoster
  rw [Option.getD_some, Option.getD_some, sortStrings_eq_of_perm h]

theorem resolveTeamName_perm {l l' : List String} (h : l.Perm l') :
    resolveTeamName (some l) = resolveTeamName (some l') := by
  unfold resolveTeamName
  rw [joinedRoster_perm h]

theorem strLeb_of_ltb {a b : String} (h : strLtb a b = true) :
    strLeb a b = true := by
  unfold strLtb at h
  unfold strLeb
  cases hc : lexCmp a.data b.data
  · rfl
  · rfl
  · rw [hc] at h
    exact absurd h (by decide)

theorem strLeb_false_of_ltb {a b : String} (h : strLtb a b = true) :
    strLeb b a = false := by
  unfold strLtb at h
  unfold strLeb
  rw [lexCmp_swap a.data b.data]
  cases hc : lexCmp a.data b.data
  · rfl
  · rw [hc] at h
    exact absurd h (by decide)
  · rw [hc] at h
    exact absurd h (by decide)

theorem strLeb_of_not_ltb {a b : String} (h : strLtb a b = false) :
    strLeb b a = true := by
  unfold strLtb at h
  unfold strLeb
  rw [lexCmp_swap a.data b.data]
  cases hc : lexCmp a.data b.data
  · rw [hc] at h
    exact absurd h (by decide)
  · rfl
  · rfl

/-! ### Claim C7: roster order invariance and the resolve format -/

/-- C7 counterexample: the roster `[""]` is non-empty, and the sorted
join the claim prescribes for it is the empty string, but the code's
falsy-string fallback returns `"Unknown"` instead. -/
theorem resolve_format_counterexample :
    resolveTeamName (some [""]) = "Unknown" ∧
    " & ".intercalate (sortStrings [""]) = "" ∧
    ([""] : List String) ≠ [] ∧
    resolveTeamName (some [""]) ≠ " & ".intercalate (sortStrings [""]) := by
  refine ⟨by decide, by decide, by decide, by decide⟩

/-- C7 (amended): `resolve` is invariant under every permutation of the
roster; a missing or empty roster resolves to `"Unknown"`; a roster whose
sorted `" & "`-join is non-empty resolves to that join (names in
ascending code-point order), and a roster whose join is empty (the
single empty name) also resolves to `"Unknown"`. -/
theorem resolve_roster_order_invariance :
    (∀ l l' : List String, l.Perm l' →
        resolveTeamName (some l) = resolveTeamName (some l')) ∧
    resolveTeamName none = "Unknown" ∧
    resolveTeamName (some []) = "Unknown" ∧
    resolveTeamName (some ["Bob", "Alice"]) = "Alice & Bob" ∧
    (∀ l : List String, joinedRoster (some l) ≠ "" →
        resolveTeamName (some l) = " & ".intercalate (sortStrings l)) ∧
    (∀ l : List String, joinedRoster (some l) = "" →
        resolveTeamName (some l) = "Unknown") := by
  refine ⟨fun l l' h => resolveTeamName_perm h, by decide, by decide,
    by decide, ?_, ?_⟩
  · intro l h
    unfold resolveTeamName
    simp only [if_neg h]
    rfl
  · intro l h
    unfold resolveTeamName
    simp only [if_pos h]

/-- Witness for `resolve_roster_order_invariance` at the §8 example
permutation. -/
theorem resolve_roster_order_invariance_witness :
    resolveTeamName (some ["Bob", "Alice"]) =
      resolveTeamName (some ["Alice", "Bob"]) :=
  resolve_roster_order_invariance.1 _ _ (by decide)

/-! ### Claim C3: team-identity resolution mutates the roster -/

/-- C3 counterexample: resolving a match side sorts the roster array in
place, so the input roster `["Bob", "Alice"]` does not keep its element
order. -/
theorem roster_mutation_counterexample :
    rosterAfterResolve (some ["Bob", "Alice"]) ≠ some ["Bob", "Alice"] := by
  decide

/-- C3 (amended): team-identity resolution is deterministic and keeps
each present roster's multiset of names, but reorders the roster in
place into ascending code-point order; a roster already in that order is
unchanged, re-resolving the mutated roster yields the same identity, and
an absent roster stays absent. -/
theorem roster_resolution_frame (l : List String) :
    rosterAfterResolve (some l) = some (sortStrings l) ∧
    (sortStrings l).Perm l ∧
    List.Sorted (fun a b : String => strLeb a b = true) (sortStrings l) ∧
    (List.Sorted (fun a b : String => strLeb a b = true) l →
      rosterAfterResolve (some l) = some l) ∧
    resolveTeamName (some (sortStrings l)) = resolveTeamName (some l) ∧
    rosterAfterResolve none = none := by
  refine ⟨rfl, sortStrings_perm l, sortStrings_sorted l, ?_, ?_, rfl⟩
  · intro h
    show some (sortStrings l) = some l
    rw [sortStrings_of_sorted h]
  · exact resolveTeamName_perm (sortStrings_perm l)

/-- Witness for `roster_resolution_frame`: an already-sorted roster is
left unchanged. -/
theorem roster_resolution_frame_witness :
    rosterAfterResolve (some ["Alice", "Bob"]) = some ["Alice", "Bob"] :=
  (roster_resolution_frame ["Alice", "Bob"]).2.2.2.1 (by decide)

/-! ### Claim C2: the last-play-day window -/

theorem maxCreated_fold_spec (ms : List MatchRec) (acc : String) :
    (ms.foldl
        (fun mx m => if strLtb mx m.created_at then m.created_at else mx)
        acc = acc ∨
      ms.foldl
        (fun mx m => if strLtb mx m.created_at then m.created_at else mx)
        acc ∈ ms.map MatchRec.created_at) ∧
    strLeb acc
      (ms.foldl
        (fun mx m => if strLtb mx m.created_at then m.created_at else mx)
        acc) = true ∧
    ∀ m ∈ ms,
      strLeb m.created_at
        (ms.foldl
          (fun mx m => if strLtb mx m.created_at then m.created_at else mx)
          acc) = true := by
  induction ms generalizing acc with
  | nil =>
      refine ⟨Or.inl rfl, strLeb_refl acc, ?_⟩
      intro m hm
      exact absurd hm (List.not_mem_nil m)
  | cons e rest ih =>
      rw [List.foldl_cons]
      by_cases hlt : strLtb acc e.created_at = true
      · rw [if_pos hlt]
        obtain ⟨hmem, hle, hall⟩ := ih e.created_at
        refine ⟨?_, ?_, ?_⟩
        · rcases hmem with h | h
          · exact Or.inr (by simp [h])
          · exact Or.inr (by simp [h])
        · exact strLeb_trans (strLeb_of_ltb hlt) hle
        · intro m hm
          rcases List.mem_cons.mp hm with h | h
          · subst h
            exact hle
          · exact hall m h
      · rw [if_neg hlt]
        have hlt2 : strLtb acc e.created_at = false := by
          revert hlt
          cases strLtb acc e.created_at <;> simp
        obtain ⟨hmem, hle, hall⟩ := ih acc
        refine ⟨?_, hle, ?_⟩
        · rcases hmem with h | h
          · exact Or.inl h
          · exact Or.inr (by simp [h])
        · intro m hm
          rcases List.mem_cons.mp hm with h | h
          · subst h
            exact strLeb_trans (strLeb_of_not_ltb hlt2) hle
          · exact hall m h

/-- C2 counterexample: the last-play-day view includes an event whose own
`created_at` date portion differs from the date key, because events are
selected by `game_id` membership, not by their own timestamp. -/
theorem lastDay_event_filter_counterexample :
    (⟨"g1", 0, "P", "Kaktus", "Activation",
        "2024-01-01T09:00:00.000Z"⟩ : Event) ∈
      lastDayEvents
        [⟨"g1", 0, "P", "Kaktus", "Activation", "2024-01-01T09:00:00.000Z"⟩]
        ⟨"g1", none, none, 0, "2024-01-02T10:00:00.000Z"⟩ [] ∧
    datePortion "2024-01-01T09:00:00.000Z" ≠
      lastDayKey ⟨"g1", none, none, 0, "2024-01-02T10:00:00.000Z"⟩ [] := by
  refine ⟨by decide, by decide⟩

/-- C2 (amended): for a non-empty match list the date key is the maximum
`created_at` truncated to its UTC date portion; the last-play-day view
selects exactly the matches whose own `created_at` date portion equals
the key, and exactly the events whose `game_id` equals the `game_id` of
one of those matches — an event's own `created_at` is not consulted. -/
theorem lastDay_selection (m0 : MatchRec) (ms : List MatchRec)
    (events : List Event) :
    lastDayKey m0 ms = datePortion (maxCreated m0 ms) ∧
    maxCreated m0 ms ∈ (m0 :: ms).map MatchRec.created_at ∧
    (∀ m ∈ m0 :: ms, strLeb m.created_at (maxCreated m0 ms) = true) ∧
    (∀ m : MatchRec, m ∈ lastDayMatches m0 ms ↔
        m ∈ m0 :: ms ∧ datePortion m.created_at = lastDayKey m0 ms) ∧
    (∀ e : Event, e ∈ lastDayEvents events m0 ms ↔
        e ∈ events ∧
          e.game_id ∈ (lastDayMatches m0 ms).map MatchRec.game_id) := by
  obtain ⟨hmem, _, hall⟩ := maxCreated_fold_spec (m0 :: ms) m0.created_at
  refine ⟨rfl, ?_, ?_, ?_, ?_⟩
  · unfold maxCreated
    rcases hmem with h | h
    · rw [h]
      simp
    · exact h
  · exact hall
  · intro m
    unfold lastDayMatches
    rw [List.mem_filter]
    simp
  · intro e
    unfold lastDayEvents
    rw [List.mem_filter]
    simp

/-- Witness for `lastDay_selection`: the single match's own timestamp is
bounded by the computed maximum. -/
theorem lastDay_selection_witness :
    strLeb "2024-01-02T10:00:00.000Z"
      (maxCreated ⟨"g1", none, none, 0, "2024-01-02T10:00:00.000Z"⟩ []) =
      true :=
  (lastDay_selection ⟨"g1", none, none, 0, "2024-01-02T10:00:00.000Z"⟩ []
    []).2.2.1 ⟨"g1", none, none, 0, "2024-01-02T10:00:00.000Z"⟩ (by simp)

/-! ### Claim C9: rivalry symmetry -/

/-- C9: two matches between the same two non-empty, distinct rosters,
presented in opposite side order (up to permutation of each roster) and
won by the same roster both times, collapse into one single rivalry
record whose `teamA` precedes `teamB` in code-point order, with
`games = 2` and the winning side's counter incremented twice. -/
theorem rivalry_symmetry (r0 r1 r0x r1x : List String) (g1 g2 c1 c2 : String)
    (n0 n1 a b : String)
    (hn0 : n0 = joinedRoster (some r0)) (hn1 : n1 = joinedRoster (some r1))
    (hp0 : r0x.Perm r0) (hp1 : r1x.Perm r1)
    (h0 : n0 ≠ "") (h1 : n1 ≠ "") (hne : n0 ≠ n1)
    (ha : a = if strLeb n0 n1 then n0 else n1)
    (hb : b = if strLeb n0 n1 then n1 else n0) :
    computeRivalries
        [⟨g1, some r0, some r1, 0, c1⟩, ⟨g2, some r1x, some r0x, 1, c2⟩] =
      [(a ++ " vs " ++ b,
        ⟨a, b, if n0 = a then 2 else 0, if n0 = a then 0 else 2, 2⟩)] ∧
    strLtb a b = true := by
  have e1 : joinedRoster (some r1x) = n1 := by
    rw [hn1]
    exact joinedRoster_perm hp1
  have e0 : joinedRoster (some r0x) = n0 := by
    rw [hn0]
    exact joinedRoster_perm hp0
  have hcanon1 : (if strLeb n0 n1 then n0 else n1) = a := ha.symm
  have hcanon2 : (if strLeb n0 n1 then n1 else n0) = b := hb.symm
  have hcanon1x : (if strLeb n1 n0 then n1 else n0) = a := by
    by_cases hle : strLeb n0 n1 = true
    · have hlt := strLtb_of_le_ne hle hne
      rw [strLeb_false_of_ltb hlt, ha]
      simp [hle]
    · have h2 : strLeb n1 n0 = true := strLeb_of_not_le hle
      have hfalse : strLeb n0 n1 = false := by
        revert hle
        cases strLeb n0 n1 <;> simp
      rw [h2, ha, hfalse]
      simp
  have hcanon2x : (if strLeb n1 n0 then n0 else n1) = b := by
    by_cases hle : strLeb n0 n1 = true
    · have hlt := strLtb_of_le_ne hle hne
      rw [strLeb_false_of_ltb hlt, hb]
      simp [hle]
    · have h2 : strLeb n1 n0 = true := strLeb_of_not_le hle
      have hfalse : strLeb n0 n1 = false := by
        revert hle
        cases strLeb n0 n1 <;> simp
      rw [h2, hb, hfalse]
      simp
  have step1 : rivalryStep [] ⟨g1, some r0, some r1, 0, c1⟩ =
      [(a ++ " vs " ++ b,
        ⟨a, b, if n0 = a then 1 else 0, if n0 = a then 0 else 1, 1⟩)] := by
    simp only [rivalryStep, ← hn0, ← hn1, hcanon1, hcanon2]
    rw [if_neg (by simp [h0, h1])]
    by_cases hna : n0 = a <;> simp [upsert, hna]
  have step2 : rivalryStep
      [(a ++ " vs " ++ b,
        ⟨a, b, if n0 = a then 1 else 0, if n0 = a then 0 else 1, 1⟩)]
      ⟨g2, some r1x, some r0x, 1, c2⟩ =
      [(a ++ " vs " ++ b,
        ⟨a, b, if n0 = a then 2 else 0, if n0 = a then 0 else 2, 2⟩)] := by
    simp only [rivalryStep, e0, e1, hcanon1x, hcanon2x]
    rw [if_neg (by simp [h0, h1])]
    by_cases hna : n0 = a <;> simp [upsert, hna]
  constructor
  · show (List.foldl rivalryStep []
      [⟨g1, some r0, some r1, 0, c1⟩, ⟨g2, some r1x, some r0x, 1, c2⟩]) = _
    rw [List.foldl_cons, List.foldl_cons, List.foldl_nil, step1, step2]
  · by_cases hle : strLeb n0 n1 = true
    · rw [ha, hb, hle]
      simp only [if_pos rfl]
      exact strLtb_of_le_ne hle hne
    · have h2 : strLeb n1 n0 = true := strLeb_of_not_le hle
      rw [ha, hb]
      have hfalse : strLeb n0 n1 = false := by
        revert hle
        cases strLeb n0 n1 <;> simp
      rw [hfalse]
      simp only [Bool.false_eq_true, if_false]
      exact strLtb_of_le_ne h2 (fun h => hne h.symm)

/-- Witness for `rivalry_symmetry` at the concrete roster pair
`["Alice"]` vs `["Bob"]` with side order swapped. -/
theorem rivalry_symmetry_witness :
    computeRivalries
        [⟨"g1", some ["Alice"], some ["Bob"], 0, "c1"⟩,
         ⟨"g2", some ["Bob"], some ["Alice"], 1, "c2"⟩] =
      [("Alice vs Bob", ⟨"Alice", "Bob", 2, 0, 2⟩)] ∧
    strLtb "Alice" "Bob" = true := by
  have h := rivalry_symmetry ["Alice"] ["Bob"] ["Alice"] ["Bob"]
    "g1" "g2" "c1" "c2" "Alice" "Bob" "Alice" "Bob"
    (by decide) (by decide) (List.Perm.refl _) (List.Perm.refl _)
    (by decide) (by decide) (by decide) (by decide) (by decide)
  exact h

/-! ### Claim C6: sort toggling and row ordering -/

theorem rowLEb_total (spec : SortSpec) (x y : Row) :
    rowLEb spec x y = true ∨ rowLEb spec y x = true := by
  obtain ⟨c, d⟩ := spec
  cases c <;> cases d <;>
    simp only [rowLEb, decide_eq_true_eq] <;>
      first
        | exact strLeb_total _ _
        | exact (strLeb_total _ _).symm
        | exact le_total _ _
        | exact (le_total _ _).symm

theorem rowLEb_trans (spec : SortSpec) {x y z : Row}
    (h1 : rowLEb spec x y = true) (h2 : rowLEb spec y z = true) :
    rowLEb spec x z = true := by
  obtain ⟨c, d⟩ := spec
  cases c <;> cases d <;>
    simp only [rowLEb, decide_eq_true_eq] at h1 h2 ⊢ <;>
      first
        | exact strLeb_trans h1 h2
        | exact strLeb_trans h2 h1
        | exact le_trans h1 h2
        | exact le_trans h2 h1

/-- C6: `handleSort` flips the direction when the clicked column equals
the current one and otherwise resets to the clicked column with `asc`
for `name` and `desc` for the numeric columns; the rendered rows are
always ordered by the active column in the active direction; and the §8
example sequence `[B,A]` → toggle `used` → `[A,B]` → toggle `name` →
alphabetical holds on the example table. -/
theorem sort_toggle_and_order :
    (∀ (s : SortSpec) (c : SortCol), s.column = c →
        handleSortSpec s c = ⟨s.column, flipDir s.direction⟩) ∧
    (∀ (s : SortSpec) (c : SortCol), s.column ≠ c →
        handleSortSpec s c =
          ⟨c, if c = SortCol.name then SortDir.asc else SortDir.desc⟩) ∧
    (∀ (stats : List (String × PowerupStat)) (spec : SortSpec),
        List.Sorted (fun x y => rowLEb spec x y = true)
          (renderRows stats spec)) ∧
    (renderRows sortExampleStats ⟨.used, .desc⟩).map Row.name = ["B", "A"] ∧
    handleSortSpec ⟨.used, .desc⟩ .used = ⟨.used, .asc⟩ ∧
    (renderRows sortExampleStats ⟨.used, .asc⟩).map Row.name = ["A", "B"] ∧
    handleSortSpec ⟨.used, .desc⟩ .name = ⟨.name, .asc⟩ ∧
    (renderRows sortExampleStats ⟨.name, .asc⟩).map Row.name = ["A", "B"] := by
  refine ⟨?_, ?_, ?_, by decide, by decide, by decide, by decide, by decide⟩
  · intro s c h
    unfold handleSortSpec
    rw [if_pos h]
  · intro s c h
    unfold handleSortSpec
    rw [if_neg h]
  · intro stats spec
    haveI : IsTotal Row (fun x y => rowLEb spec x y = true) :=
      ⟨rowLEb_total spec⟩
    haveI : IsTrans Row (fun x y => rowLEb spec x y = true) :=
      ⟨fun _ _ _ => rowLEb_trans spec⟩
    exact List.sorted_insertionSort _ _

/-- Witness for `sort_toggle_and_order`: toggling the active `used`
column flips `desc` to `asc`, and a fresh click on `name` resets to
ascending. -/
theorem sort_toggle_and_order_witness :
    handleSortSpec ⟨SortCol.used, SortDir.desc⟩ SortCol.used =
      ⟨SortCol.used, SortDir.asc⟩ ∧
    handleSortSpec ⟨SortCol.used, SortDir.desc⟩ SortCol.name =
      ⟨SortCol.name, SortDir.asc⟩ :=
  ⟨sort_toggle_and_order.1 ⟨SortCol.used, SortDir.desc⟩ SortCol.used rfl,
   sort_toggle_and_order.2.1 ⟨SortCol.used, SortDir.desc⟩ SortCol.name
     (by decide)⟩

/-! ### Claim C1: fairness normalization -/

theorem lookupA_eq_none_of_not_mem {α : Type} (m : List (String × α))
    (k : String) (h : k ∉ m.map Prod.fst) : lookupA m k = none := by
  induction m with
  | nil => rfl
  | cons kv rest ih =>
      obtain ⟨k', v⟩ := kv
      have hne : k' ≠ k := by
        intro hx
        exact h (by simp [hx])
      simp only [lookupA, if_neg hne]
      exact ih (fun hx => h (by simp [hx]))

theorem lookupA_some_mem {α : Type} (m : List (String × α)) (k : String)
    (v : α) (h : lookupA m k = some v) : (k, v) ∈ m := by
  induction m with
  | nil => simp [lookupA] at h
  | cons kv rest ih =>
      obtain ⟨k', w⟩ := kv
      by_cases he : k' = k
      · subst he
        have h2 : w = v := by simpa [lookupA] using h
        subst h2
        exact List.mem_cons_self _ _
      · simp only [lookupA, if_neg he] at h
        exact List.mem_cons_of_mem _ (ih h)

theorem usedOf_cons (k : String) (v : PowerupStat)
    (rest : List (String × PowerupStat)) (p : String) :
    usedOf ((k, v) :: rest) p = if k = p then v.used else usedOf rest p := by
  unfold usedOf
  by_cases h : k = p
  · subst h
    simp [lookupA]
  · simp [lookupA, h]

theorem sum_ite_single (cat : List String) (k : String) (n : Nat)
    (hnd : cat.Nodup) :
    (cat.map (fun p => if k = p then n else 0)).sum =
      if k ∈ cat then n else 0 := by
  induction cat with
  | nil => simp
  | cons c cs ih =>
      rw [List.map_cons, List.sum_cons, ih hnd.of_cons]
      by_cases hc : k = c
      · subst hc
        have : k ∉ cs := (List.nodup_cons.mp hnd).1
        simp [this]
      · by_cases hm : k ∈ cs <;> simp [hc, hm, Ne.symm hc]

theorem sum_usedOf (inner : List (String × PowerupStat)) (cat : List String)
    (hcat : cat.Nodup) (hkeys : (inner.map Prod.fst).Nodup)
    (hsub : ∀ kv ∈ inner, kv.2.used ≠ 0 → kv.1 ∈ cat) :
    (cat.map (fun p => usedOf inner p)).sum = totalUsedOf inner := by
  induction inner with
  | nil =>
      simp [usedOf, lookupA, totalUsedOf]
  | cons kv rest ih =>
      obtain ⟨k, v⟩ := kv
      have hknotin : k ∉ rest.map Prod.fst := (List.nodup_cons.mp hkeys).1
      have hrest : (rest.map Prod.fst).Nodup := (List.nodup_cons.mp hkeys).2
      have hform : (cat.map (fun p => usedOf ((k, v) :: rest) p)) =
          cat.map (fun p => (if k = p then v.used else 0) + usedOf rest p) := by
        refine List.map_congr_left ?_
        intro p _
        rw [usedOf_cons]
        by_cases h : k = p
        · subst h
          rw [if_pos rfl, if_pos rfl]
          have h0 : usedOf rest k = 0 := by
            unfold usedOf
            rw [lookupA_eq_none_of_not_mem rest k hknotin]
          rw [h0]
          simp
        · simp [h]
      rw [hform, List.sum_map_add, sum_ite_single cat k v.used hcat,
        ih hrest (fun kv hkv h => hsub kv (List.mem_cons_of_mem _ hkv) h)]
      by_cases hk : k ∈ cat
      · simp only [if_pos hk]
        show v.used + totalUsedOf rest = totalUsedOf ((k, v) :: rest)
        unfold totalUsedOf
        simp
      · have hv : v.used = 0 := by
          by_contra hv
          exact hk (hsub (k, v) (List.mem_cons_self _ _) hv)
        simp only [if_neg hk]
        show 0 + totalUsedOf rest = totalUsedOf ((k, v) :: rest)
        unfold totalUsedOf
        simp [hv]

theorem sum_pct_eq_100 (inner : List (String × PowerupStat))
    (hkeys : (inner.map Prod.fst).Nodup)
    (hsub : ∀ kv ∈ inner, kv.2.used ≠ 0 → kv.1 ∈ catalogue)
    (hpos : totalUsedOf inner ≠ 0) :
    (catalogue.map (pctOf inner)).sum = 100 := by
  have hcat : catalogue.Nodup := by decide
  have hs := sum_usedOf inner catalogue hcat hkeys hsub
  have hform : catalogue.map (pctOf inner) =
      catalogue.map (fun p =>
        (usedOf inner p : ℚ) * (100 / (totalUsedOf inner : ℚ))) := by
    refine List.map_congr_left ?_
    intro p _
    unfold pctOf
    rw [if_pos (Nat.pos_of_ne_zero hpos)]
    ring
  have hcast : ((totalUsedOf inner : ℚ)) ≠ 0 := Nat.cast_ne_zero.mpr hpos
  rw [hform, List.sum_map_mul_right]
  have : (catalogue.map (fun p => ((usedOf inner p : ℚ)))) =
      (catalogue.map (fun p => usedOf inner p)).map Nat.cast := by
    rw [List.map_map]
    rfl
  rw [this, ← Nat.cast_list_sum, hs]
  field_simp

/-- C1 counterexample: a player whose only recorded usage is of a
power-up outside the fixed catalogue has positive total usage, yet the
fairness percentages over the catalogue sum to 0, not 100. -/
theorem fairness_counterexample :
    lookupA (calcPlayerStats
        [⟨"g1", 0, "P", "Laser", "Activation", "t"⟩]) "P" =
      some [("Laser", ⟨1, 0⟩)] ∧
    totalUsedOf [("Laser", ⟨1, 0⟩)] ≠ 0 ∧
    (catalogue.map (pctOf [("Laser", (⟨1, 0⟩ : PowerupStat))])).sum = 0 := by
  refine ⟨by decide, by decide, ?_⟩
  have h : ∀ p ∈ catalogue, pctOf [("Laser", (⟨1, 0⟩ : PowerupStat))] p = 0 := by
    intro p hp
    have hl : lookupA [("Laser", (⟨1, 0⟩ : PowerupStat))] p = none := by
      refine lookupA_eq_none_of_not_mem _ _ ?_
      intro hmem
      have hp2 : p = "Laser" := by simpa using hmem
      subst hp2
      revert hp
      decide
    unfold pctOf usedOf
    rw [hl]
    norm_num
  calc (catalogue.map (pctOf [("Laser", (⟨1, 0⟩ : PowerupStat))])).sum
      = (catalogue.map (fun _ => (0 : ℚ))).sum := by
        rw [List.map_congr_left h]
    _ = 0 := by simp

/-! #### Key invariants of `calcPlayerStats` for the amended claim -/

theorem keys_upsert {α : Type} (m : List (String × α)) (k : String)
    (init : α) (f : α → α) :
    (upsert m k init f).map Prod.fst =
      if k ∈ m.map Prod.fst then m.map Prod.fst
      else m.map Prod.fst ++ [k] := by
  induction m with
  | nil => simp [upsert]
  | cons kv rest ih =>
      obtain ⟨k', v⟩ := kv
      by_cases h : k' = k
      · subst h
        simp [upsert]
      · have hne : ¬ k = k' := fun hx => h hx.symm
        simp only [upsert, if_neg h, List.map_cons, ih]
        by_cases hm : k ∈ rest.map Prod.fst <;> simp [hm, hne]

theorem keys_seedIfAbsent {α : Type} (m : List (String × α)) (k : String)
    (init : α) :
    (seedIfAbsent m k init).map Prod.fst =
      if k ∈ m.map Prod.fst then m.map Prod.fst
      else m.map Prod.fst ++ [k] := by
  induction m with
  | nil => simp [seedIfAbsent]
  | cons kv rest ih =>
      obtain ⟨k', v⟩ := kv
      by_cases h : k' = k
      · subst h
        simp [seedIfAbsent]
      · have hne : ¬ k = k' := fun hx => h hx.symm
        simp only [seedIfAbsent, if_neg h, List.map_cons, ih]
        by_cases hm : k ∈ rest.map Prod.fst <;> simp [hm, hne]

theorem mem_upsert_cases {α : Type} {m : List (String × α)} {k : String}
    {init : α} {f : α → α} {kv : String × α} :
    kv ∈ upsert m k init f →
      kv ∈ m ∨ ∃ v0, kv = (k, f v0) ∧ (v0 = init ∨ (k, v0) ∈ m) := by
  induction m with
  | nil =>
      intro h
      simp only [upsert, List.mem_singleton] at h
      exact Or.inr ⟨init, h, Or.inl rfl⟩
  | cons kv' rest ih =>
      intro h
      obtain ⟨k', v⟩ := kv'
      by_cases he : k' = k
      · subst he
        unfold upsert at h
        rw [if_pos rfl] at h
        rcases List.mem_cons.mp h with h | h
        · exact Or.inr ⟨v, h, Or.inr (List.mem_cons_self _ _)⟩
        · exact Or.inl (List.mem_cons_of_mem _ h)
      · unfold upsert at h
        rw [if_neg he] at h
        rcases List.mem_cons.mp h with h | h
        · exact Or.inl (by simp [h])
        · rcases ih h with h2 | ⟨v0, hv0, hc⟩
          · exact Or.inl (List.mem_cons_of_mem _ h2)
          · refine Or.inr ⟨v0, hv0, ?_⟩
            rcases hc with hc | hc
            · exact Or.inl hc
            · exact Or.inr (List.mem_cons_of_mem _ hc)

theorem mem_seedIfAbsent_cases {α : Type} {m : List (String × α)}
    {k : String} {init : α} {kv : String × α} :
    kv ∈ seedIfAbsent m k init → kv ∈ m ∨ kv = (k, init) := by
  induction m with
  | nil =>
      intro h
      simp only [seedIfAbsent, List.mem_singleton] at h
      exact Or.inr h
  | cons kv' rest ih =>
      intro h
      obtain ⟨k', v⟩ := kv'
      by_cases he : k' = k
      · subst he
        unfold seedIfAbsent at h
        rw [if_pos rfl] at h
        exact Or.inl h
      · unfold seedIfAbsent at h
        rw [if_neg he] at h
        rcases List.mem_cons.mp h with h | h
        · exact Or.inl (by simp [h])
        · rcases ih h with h2 | h2
          · exact Or.inl (List.mem_cons_of_mem _ h2)
          · exact Or.inr h2

theorem cellStep_keys (inner : List (String × PowerupStat)) (e : Event)
    (hN : (inner.map Prod.fst).Nodup) :
    ((cellStep inner e).map Prod.fst).Nodup ∧
    ∀ k ∈ (cellStep inner e).map Prod.fst,
      k ∈ inner.map Prod.fst ∨ k = e.powerup_name := by
  have hmain : ∀ (res : List (String × PowerupStat)),
      res.map Prod.fst =
        (if e.powerup_name ∈ inner.map Prod.fst then inner.map Prod.fst
         else inner.map Prod.fst ++ [e.powerup_name]) →
      (res.map Prod.fst).Nodup ∧
      ∀ k ∈ res.map Prod.fst,
        k ∈ inner.map Prod.fst ∨ k = e.powerup_name := by
    intro res hres
    rw [hres]
    by_cases hm : e.powerup_name ∈ inner.map Prod.fst
    · simp only [if_pos hm]
      exact ⟨hN, fun k hk => Or.inl hk⟩
    · simp only [if_neg hm]
      constructor
      · refine hN.append (List.nodup_singleton _) ?_
        intro x hx hx2
        rw [List.mem_singleton] at hx2
        subst hx2
        exact hm hx
      · intro k hk
        rcases List.mem_append.mp hk with h | h
        · exact Or.inl h
        · exact Or.inr (List.mem_singleton.mp h)
  unfold cellStep
  by_cases ht : e.event_type = "Activation"
  · rw [if_pos ht]
    exact hmain _ (keys_upsert _ _ _ _)
  · rw [if_neg ht]
    by_cases hg : e.event_type = "Goal" ∧ e.powerup_name ≠ "None"
    · rw [if_pos hg]
      exact hmain _ (keys_upsert _ _ _ _)
    · rw [if_neg hg]
      exact hmain _ (keys_seedIfAbsent _ _ _)

theorem playerFold_inv (S : List String) (l : List Event)
    (acc : List (String × List (String × PowerupStat)))
    (hacc : ∀ kv ∈ acc, ((kv.2.map Prod.fst).Nodup ∧
      ∀ k ∈ kv.2.map Prod.fst, k ∈ S))
    (hl : ∀ e ∈ l, e.powerup_name ∈ S) :
    ∀ kv ∈ l.foldl playerStep acc,
      ((kv.2.map Prod.fst).Nodup ∧ ∀ k ∈ kv.2.map Prod.fst, k ∈ S) := by
  induction l generalizing acc with
  | nil => exact hacc
  | cons e rest ih =>
      rw [List.foldl_cons]
      refine ih _ ?_ (fun x hx => hl x (List.mem_cons_of_mem _ hx))
      intro kv hkv
      rcases mem_upsert_cases hkv with h | ⟨v0, hv0, hc⟩
      · exact hacc kv h
      · have hv0props : (v0.map Prod.fst).Nodup ∧
            ∀ k ∈ v0.map Prod.fst, k ∈ S := by
          rcases hc with hc | hc
          · subst hc
            simp
          · exact hacc (e.player_name, v0) hc
        have hcell := cellStep_keys v0 e hv0props.1
        subst hv0
        refine ⟨hcell.1, ?_⟩
        intro k hk
        rcases hcell.2 k hk with h2 | h2
        · exact hv0props.2 k h2
        · subst h2
          exact hl e (List.mem_cons_self _ _)

theorem seedFold_inner_nil (l : List Event)
    (acc : List (String × List (String × PowerupStat)))
    (hacc : ∀ kv ∈ acc, kv.2 = ([] : List (String × PowerupStat))) :
    ∀ kv ∈ l.foldl (fun m e => seedIfAbsent m e.player_name []) acc,
      kv.2 = ([] : List (String × PowerupStat)) := by
  induction l generalizing acc with
  | nil => exact hacc
  | cons e rest ih =>
      rw [List.foldl_cons]
      refine ih _ ?_
      intro kv hkv
      rcases mem_seedIfAbsent_cases hkv with h | h
      · exact hacc kv h
      · rw [h]

/-- C1 (amended): for every entity of the player statistics map, provided
every event's `powerup_name` lies in the fixed catalogue, the fairness
percentages over the catalogue sum to exactly 100 whenever the entity's
total recorded usage is positive, and every percentage is 0 when the
total usage is 0. -/
theorem fairness_normalization (events : List Event) (entity : String)
    (inner : List (String × PowerupStat))
    (hlook : lookupA (calcPlayerStats events) entity = some inner)
    (hcatall : ∀ e ∈ events, e.powerup_name ∈ catalogue) :
    (totalUsedOf inner ≠ 0 → (catalogue.map (pctOf inner)).sum = 100) ∧
    (totalUsedOf inner = 0 → ∀ p, pctOf inner p = 0) := by
  have hmem : (entity, inner) ∈ calcPlayerStats events :=
    lookupA_some_mem _ _ _ hlook
  have hmem2 : (entity, inner) ∈
      events.foldl playerStep
        (events.foldl (fun m e => seedIfAbsent m e.player_name []) []) := by
    simpa [calcPlayerStats] using hmem
  have hinv := playerFold_inv (events.map Event.powerup_name) events
    (events.foldl (fun m e => seedIfAbsent m e.player_name []) [])
    (by
      intro kv hkv
      have : kv.2 = ([] : List (String × PowerupStat)) :=
        seedFold_inner_nil events [] (by intro kv h; simp at h) kv hkv
      rw [this]
      simp)
    (by intro e he; exact List.mem_map_of_mem _ he)
    (entity, inner) hmem2
  refine ⟨?_, ?_⟩
  · intro hpos
    refine sum_pct_eq_100 inner hinv.1 ?_ hpos
    intro kv hkv _
    have hk : kv.1 ∈ events.map Event.powerup_name :=
      hinv.2 kv.1 (List.mem_map_of_mem _ hkv)
    rcases List.mem_map.mp hk with ⟨e, he, heq⟩
    rw [← heq]
    exact hcatall e he
  · intro h0 p
    unfold pctOf
    rw [h0]
    simp

/-- Witness for `fairness_normalization`: the §8 end-to-end example, one
Kaktus activation by one player, gives a fairness vector summing to 100. -/
theorem fairness_normalization_witness :
    (totalUsedOf [("Kaktus", (⟨1, 1⟩ : PowerupStat))] ≠ 0 →
      (catalogue.map (pctOf [("Kaktus", (⟨1, 1⟩ : PowerupStat))])).sum =
        100) ∧
    (totalUsedOf [("Kaktus", (⟨1, 1⟩ : PowerupStat))] = 0 →
      ∀ p, pctOf [("Kaktus", (⟨1, 1⟩ : PowerupStat))] p = 0) :=
  fairness_normalization
    [⟨"g1", 0, "Nix", "Kaktus", "Activation", "t"⟩,
     ⟨"g1", 0, "Nix", "Kaktus", "Goal", "t"⟩] "Nix"
    [("Kaktus", ⟨1, 1⟩)] (by decide) (by decide)

end Rumble
